import Mathlib

/-!
Verification of the Principia orbital-mechanics core against its
specification.  The development shallowly embeds the parts of the code that
the properties below are about:

* the scalar/vector algebra (`geometry/point.hpp`, `geometry/grassmann.hpp`)
  is embedded as rational 3-vectors (`V3`) and pairs of position and velocity
  (`DegreesOfFreedom`); `Instant` is embedded as a rational number;
* the pile-up mechanism (`ksp_plugin/pile_up.{hpp,cpp}`; only its test
  `ksp_plugin_test/pile_up_test.cpp` is in the repository snapshot) is
  modelled from the specification and from the observable expectations of
  that test;
* `physics/transforms_body.hpp` (present in the snapshot) is embedded
  directly;
* the Chebyshev series (`numerics/чебышёв_series.hpp`, body file absent),
  the discrete trajectory (declaration only) and the apsides computation
  (`physics/apsides.hpp`, body file absent) are modelled from the
  specification.
-/

namespace Principia

/-- Coordinates of a 3-vector, with exact rational components standing in for
the dimensioned `double` coordinates of `geometry::R3Element`. -/
structure V3 where
  x : ℚ
  y : ℚ
  z : ℚ
deriving DecidableEq, Repr

namespace V3

def zero : V3 := ⟨0, 0, 0⟩

def add (a b : V3) : V3 := ⟨a.x + b.x, a.y + b.y, a.z + b.z⟩

def sub (a b : V3) : V3 := ⟨a.x - b.x, a.y - b.y, a.z - b.z⟩

def smul (q : ℚ) (a : V3) : V3 := ⟨q * a.x, q * a.y, q * a.z⟩

instance : Zero V3 := ⟨zero⟩

instance : Add V3 := ⟨add⟩

instance : Sub V3 := ⟨sub⟩

instance : SMul ℚ V3 := ⟨smul⟩

end V3

/-- `physics::DegreesOfFreedom`: a position and a velocity.  Positions
(`Point`-typed in `geometry/point.hpp`) are represented by their coordinate
vector; position differences are then plain vector differences, exactly as
`Point::operator-` computes them. -/
structure DegreesOfFreedom where
  position : V3
  velocity : V3
deriving DecidableEq, Repr

namespace DegreesOfFreedom

def sub (a b : DegreesOfFreedom) : DegreesOfFreedom :=
  ⟨a.position - b.position, a.velocity - b.velocity⟩

def add (a b : DegreesOfFreedom) : DegreesOfFreedom :=
  ⟨a.position + b.position, a.velocity + b.velocity⟩

def smul (q : ℚ) (a : DegreesOfFreedom) : DegreesOfFreedom :=
  ⟨q • a.position, q • a.velocity⟩

end DegreesOfFreedom

/-- `ksp_plugin::Part`: stable integer identity, mass, accumulated intrinsic
force, and degrees of freedom in the ambient (Barycentric) frame. -/
structure Part where
  id : ℕ
  mass : ℚ
  intrinsicForce : V3
  dof : DegreesOfFreedom
deriving DecidableEq, Repr

/-- `geometry::Barycentre` specialised to a list of parts: the mass-weighted
combination of the members' degrees of freedom. -/
def Barycentre (parts : List Part) : DegreesOfFreedom :=
  let m := (parts.map Part.mass).sum
  let weighted := (parts.map fun p => DegreesOfFreedom.smul p.mass p.dof).foldl
    DegreesOfFreedom.add ⟨0, 0⟩
  DegreesOfFreedom.smul (1 / m) weighted

/-- Modelled from the spec: `ksp_plugin::PileUp` (its implementation
`pile_up.cpp` is absent from the snapshot; only `pile_up_test.cpp` is
present).  The pile-up owns its member parts, its total mass and summed
intrinsic force, the psychohistory (the barycentre's discrete trajectory in
the ambient frame), the members' rigid-frame offsets keyed by part id
("actual degrees of freedom") and the externally observed offsets
("apparent degrees of freedom"). -/
structure PileUp where
  members : List Part
  mass : ℚ
  intrinsicForce : V3
  psychohistory : List (ℚ × DegreesOfFreedom)
  actualPartDof : List (ℕ × DegreesOfFreedom)
  apparentPartDof : List (ℕ × DegreesOfFreedom)
deriving DecidableEq, Repr

/-- Modelled from the spec: the `PileUp` constructor.  Given the parts and
the instant, it computes the mass-weighted barycenter as the rigid frame's
origin, stores each part's offset from that origin as its actual degrees of
freedom, sums the members' masses and intrinsic forces, and starts the
psychohistory at the barycentre. -/
def mkPileUp (parts : List Part) (t : ℚ) : PileUp :=
  let bary := Barycentre parts
  { members := parts
    mass := (parts.map Part.mass).foldl (· + ·) 0
    intrinsicForce := (parts.map Part.intrinsicForce).foldl (· + ·) 0
    psychohistory := [(t, bary)]
    actualPartDof := parts.map fun p => (p.id, DegreesOfFreedom.sub p.dof bary)
    apparentPartDof := [] }

/-- The rigid-frame offset stored for part `p` at construction. -/
def constructionOffset (parts : List Part) (p : Part) : DegreesOfFreedom :=
  DegreesOfFreedom.sub p.dof (Barycentre parts)

instance : AddCommMonoid V3 where
  add_assoc a b c := by
    show V3.add (V3.add a b) c = V3.add a (V3.add b c)
    simp only [V3.add, V3.mk.injEq]
    refine ⟨?_, ?_, ?_⟩ <;> ring
  zero_add a := by
    show V3.add ⟨0, 0, 0⟩ a = a
    simp [V3.add]
  add_zero a := by
    show V3.add a ⟨0, 0, 0⟩ = a
    simp [V3.add]
  add_comm a b := by
    show V3.add a b = V3.add b a
    simp only [V3.add, V3.mk.injEq]
    refine ⟨?_, ?_, ?_⟩ <;> ring
  nsmul := nsmulRec

/-- `PileUp::SetPartApparentDegreesOfFreedom`, modelled from the spec: record
an externally observed state for a part (keyed by its id) without touching
the actual rigid-frame offsets. -/
def SetPartApparentDegreesOfFreedom (pu : PileUp) (id : ℕ)
    (dof : DegreesOfFreedom) : PileUp :=
  { pu with apparentPartDof :=
      if pu.apparentPartDof.any (fun q => q.1 == id) then
        pu.apparentPartDof.map fun q => if q.1 == id then (id, dof) else q
      else pu.apparentPartDof ++ [(id, dof)] }

/-- The apparent degrees of freedom recorded for part `p` (zero if absent;
only meaningful when the apparent map is complete). -/
def apparentOf (pu : PileUp) (p : Part) : DegreesOfFreedom :=
  (pu.apparentPartDof.lookup p.id).getD ⟨0, 0⟩

/-- Whether apparent degrees of freedom have been recorded for every member
part. -/
def apparentComplete (pu : PileUp) : Bool :=
  pu.members.all fun p => (pu.apparentPartDof.lookup p.id).isSome

/-- The mass-weighted barycentre of the members' apparent degrees of
freedom. -/
def ApparentBarycentre (pu : PileUp) : DegreesOfFreedom :=
  let m := (pu.members.map Part.mass).sum
  let weighted := (pu.members.map fun p =>
    DegreesOfFreedom.smul p.mass (apparentOf pu p)).foldl
    DegreesOfFreedom.add ⟨0, 0⟩
  DegreesOfFreedom.smul (1 / m) weighted

/-- `PileUp::DeformPileUpIfNeeded`, modelled from the spec: if apparent
degrees of freedom have been recorded for all members, recompute the
barycenter from the apparent data (mass-weighted), rebase each member's
rigid-frame offset to its offset from that apparent barycenter, and clear
the apparent map; otherwise leave the pile-up unchanged. -/
def DeformPileUpIfNeeded (pu : PileUp) : PileUp :=
  if apparentComplete pu then
    let bary := ApparentBarycentre pu
    { pu with
      actualPartDof := pu.members.map fun p =>
        (p.id, DegreesOfFreedom.sub (apparentOf pu p) bary)
      apparentPartDof := [] }
  else pu

/-- The result of `PileUp::AdvanceTime`: the points validated during the
call (the psychohistory after the call, before the already redistributed
prefix is forgotten) and whether the psychohistory/part tails were marked
authoritative. -/
structure AdvanceResult where
  psychohistory : List (ℚ × DegreesOfFreedom)
  authoritative : Bool
deriving DecidableEq, Repr

/-- The time of the last point of a timeline, if any. -/
def lastTimeOf (timeline : List (ℚ × DegreesOfFreedom)) : Option ℚ :=
  (timeline.map Prod.fst).getLast?

/-- `PileUp::AdvanceTime(t)`, modelled from the spec and from the observable
expectations of `pile_up_test.cpp` (the implementation file is absent from
the snapshot).  The ephemeris is abstracted the way the test mocks it:
`fixedPoints` are the grid samples a fixed-step flow appends (empty when an
intrinsic force is present, since the fixed-step integrator cannot handle
it), and `adaptivePoint` is the final point an adaptive flow reaching `t`
appends.  With an intrinsic force, the whole interval is flowed adaptively
and the result is marked authoritative; with no intrinsic force, the
fixed-step flow is used and, if its grid stops short of `t`, an adaptive
prolongation to `t` is appended and the tail is left non-authoritative. -/
def AdvanceTime (pu : PileUp) (t : ℚ)
    (fixedPoints : List (ℚ × DegreesOfFreedom))
    (adaptivePoint : DegreesOfFreedom) : AdvanceResult :=
  if pu.intrinsicForce = (0 : V3) then
    let afterFixed := pu.psychohistory ++ fixedPoints
    if lastTimeOf afterFixed = some t then
      ⟨afterFixed, true⟩
    else
      ⟨afterFixed ++ [(t, adaptivePoint)], false⟩
  else
    ⟨pu.psychohistory ++ [(t, adaptivePoint)], true⟩

/-- Part 1 of the pile-up test fixture: id 111, mass 1 kg, at (1,2,3) m with
velocity (10,20,30) m/s. -/
def p1Test : Part :=
  ⟨111, 1, 0, ⟨⟨1, 2, 3⟩, ⟨10, 20, 30⟩⟩⟩

/-- Part 2 of the pile-up test fixture: id 222, mass 2 kg, at (6,5,4) m with
velocity (60,50,40) m/s. -/
def p2Test : Part :=
  ⟨222, 2, 0, ⟨⟨6, 5, 4⟩, ⟨60, 50, 40⟩⟩⟩

/-- Part 1 with the intrinsic force (1,2,3) N accumulated, as in the
intrinsic-force lifecycle test. -/
def p1TestF : Part :=
  ⟨111, 1, ⟨1, 2, 3⟩, ⟨⟨1, 2, 3⟩, ⟨10, 20, 30⟩⟩⟩

/-- Part 2 with the intrinsic force (11,21,31) N accumulated, as in the
intrinsic-force lifecycle test. -/
def p2TestF : Part :=
  ⟨222, 2, ⟨11, 21, 31⟩, ⟨⟨6, 5, 4⟩, ⟨60, 50, 40⟩⟩⟩

/-- Apparent degrees of freedom recorded for part 1 in the lifecycle
tests. -/
def a1Test : DegreesOfFreedom :=
  ⟨⟨-11/3, -1, 2/3⟩, ⟨-110/3, -10, 20/3⟩⟩

/-- Apparent degrees of freedom recorded for part 2 in the lifecycle
tests. -/
def a2Test : DegreesOfFreedom :=
  ⟨⟨2, 0, -2/3⟩, ⟨20, 0, -20/3⟩⟩

/-- The point the mocked adaptive flow appends in the lifecycle tests. -/
def adaptiveTest : DegreesOfFreedom :=
  ⟨⟨1, 14, 31/3⟩, ⟨10, 140, 310/3⟩⟩

/-- Modelled from the spec: `physics::DiscreteTrajectory` (only forward
declarations are in the snapshot).  A trajectory is a tree of sample
sequences; forks share an immutable prefix with their parent, so any
root-to-leaf path is a list of (time, degrees of freedom) samples, which is
what this embedding represents; `Append` acts on the path's leaf. -/
structure DiscreteTrajectory where
  timeline : List (ℚ × DegreesOfFreedom)
deriving DecidableEq, Repr

/-- The time of the last sample on the path, if any. -/
def DiscreteTrajectory.lastTime (tr : DiscreteTrajectory) : Option ℚ :=
  (tr.timeline.map Prod.fst).getLast?

/-- Modelled from the spec: `DiscreteTrajectory::Append(t, dof)` requires `t`
strictly greater than the last time on the target path; the fatal CHECK
failure on a violated ordering is represented by `none`. -/
def DiscreteTrajectory.Append (tr : DiscreteTrajectory) (t : ℚ)
    (dof : DegreesOfFreedom) : Option DiscreteTrajectory :=
  match (tr.timeline.map Prod.fst).getLast? with
  | none => some ⟨tr.timeline ++ [(t, dof)]⟩
  | some u => if u < t then some ⟨tr.timeline ++ [(t, dof)]⟩ else none

/-- One step of the Chebyshev three-term recurrence: returns
`(T n x, T (n+1) x)`. -/
def chebPair : ℕ → ℚ → ℚ × ℚ
  | 0, x => (1, x)
  | n + 1, x =>
    let p := chebPair n x
    (p.2, 2 * x * p.2 - p.1)

/-- The Chebyshev polynomial of the first kind, `Tₙ(x)`. -/
def chebT (n : ℕ) (x : ℚ) : ℚ := (chebPair n x).1

/-- The recurrence for the Chebyshev polynomials together with their
derivatives: returns `((T n x, T (n+1) x), (dT n x, dT (n+1) x))`. -/
def chebDerivPair : ℕ → ℚ → (ℚ × ℚ) × (ℚ × ℚ)
  | 0, x => ((1, x), (0, 1))
  | n + 1, x =>
    let p := chebDerivPair n x
    ((p.1.2, 2 * x * p.1.2 - p.1.1),
     (p.2.2, 2 * p.1.2 + 2 * x * p.2.2 - p.2.1))

/-- The derivative of `Tₙ` at `x`. -/
def chebTDeriv (n : ℕ) (x : ℚ) : ℚ := (chebDerivPair n x).2.1

/-- `numerics::ЧебышёвSeries` (the serialization alias spells it
`ChebyshevSeries`): ordered coefficients (element `i` is the coefficient of
`Tᵢ`) and the validity interval `[t_min, t_max]`, which must be
nonempty. -/
structure ChebyshevSeries where
  coefficients : List ℚ
  t_min : ℚ
  t_max : ℚ
deriving DecidableEq, Repr

/-- The argument rescaled to `[-1, 1]`, following the source's
`((t - t_max_) + (t - t_min_)) * one_over_duration_`. -/
def ChebyshevSeries.scaled (s : ChebyshevSeries) (t : ℚ) : ℚ :=
  ((t - s.t_max) + (t - s.t_min)) / (s.t_max - s.t_min)

/-- Modelled from the spec: `ЧебышёвSeries::Evaluate(t)` (the body file
`чебышёв_series_body.hpp` is absent from the snapshot).  Per the spec the
precondition is `t ∈ [t_min, t_max]` and evaluation is undefined (fails,
represented by `none`) otherwise; inside the interval it returns the series
value `Σᵢ cᵢ·Tᵢ(scaled t)` (the value the Clenshaw recurrence computes). -/
def ChebyshevSeries.Evaluate (s : ChebyshevSeries) (t : ℚ) : Option ℚ :=
  if s.t_min ≤ t ∧ t ≤ s.t_max then
    some ((s.coefficients.enum.map fun p => p.2 * chebT p.1 (s.scaled t)).sum)
  else none

/-- Modelled from the spec: `ЧебышёвSeries::EvaluateDerivative(t)`, with the
same precondition; the inner derivative is scaled by `2/(t_max - t_min)`,
the derivative of the argument rescaling. -/
def ChebyshevSeries.EvaluateDerivative (s : ChebyshevSeries) (t : ℚ) :
    Option ℚ :=
  if s.t_min ≤ t ∧ t ≤ s.t_max then
    some
      (((s.coefficients.enum.map fun p => p.2 * chebTDeriv p.1 (s.scaled t)
        ).sum) * (2 / (s.t_max - s.t_min)))
  else none

/-- `Trajectory::on_or_after(t)`: the first sample of the trajectory whose
time is at or after `t` (samples are kept in increasing time order). -/
def onOrAfter (trajectory : List (ℚ × DegreesOfFreedom)) (t : ℚ) :
    Option (ℚ × DegreesOfFreedom) :=
  trajectory.find? fun p => decide (t ≤ p.1)

/-- The first transform of `Transforms::BodyCentredNonRotating`
(`physics/transforms_body.hpp`, lines 82-99): look up the centre trajectory
at `t` with `on_or_after`, abort unless the iterator's time equals `t`
(`CHECK_EQ`, represented by `none`; dereferencing the end iterator when `t`
is past the last sample likewise aborts), and subtract the centre's position
and velocity from the input degrees of freedom. -/
def firstTransformBodyCentredNonRotating
    (centre_trajectory : List (ℚ × DegreesOfFreedom)) (t : ℚ)
    (from_degrees_of_freedom : DegreesOfFreedom) : Option DegreesOfFreedom :=
  match onOrAfter centre_trajectory t with
  | none => none
  | some centre_it =>
    if centre_it.1 = t then
      some ⟨from_degrees_of_freedom.position - centre_it.2.position,
            from_degrees_of_freedom.velocity - centre_it.2.velocity⟩
    else none

/-- The squared euclidean norm of a vector. -/
def squaredNorm (v : V3) : ℚ := v.x * v.x + v.y * v.y + v.z * v.z

/-- Modelled from the spec: `physics::ComputeApsides` (declaration in
`physics/apsides.hpp`; the body file `apsides_body.hpp` is absent).  Per the
spec it appends to the output trajectories one point per detected local
extremum of the distance to the reference over the `[begin, end)` range of
the discrete trajectory: a sample whose squared distance to the reference
position is a strict local maximum among its neighbours goes to
`apoapsides`, a strict local minimum to `periapsides`.  The reference
trajectory is abstracted by the reference position (in the test the lone
massive body stays at the World origin). -/
def ComputeApsides (reference : V3) (samples : List (ℚ × V3)) :
    List (ℚ × V3) × List (ℚ × V3) :=
  match samples with
  | a :: b :: c :: rest =>
    let r := ComputeApsides reference (b :: c :: rest)
    let da := squaredNorm (a.2 - reference)
    let db := squaredNorm (b.2 - reference)
    let dc := squaredNorm (c.2 - reference)
    (if da < db ∧ dc < db then b :: r.1 else r.1,
     if db < da ∧ db < dc then b :: r.2 else r.2)
  | _ => ([], [])

/-- The radial profile of the modelled Keplerian orbit over one period,
sampled four times per period starting at a generic phase: one strict
maximum (phase 1) and one strict minimum (phase 3) per period, as the
distance to the focus of a Keplerian ellipse has. -/
def keplerRadial (phase : ℕ) : ℚ :=
  match phase with
  | 0 => 2
  | 1 => 3
  | 2 => 2
  | _ => 1

/-- The test's discrete trajectory modelled by its radial profile: `n`
orbital periods sampled uniformly (four samples per period, time step 1, so
the analytically known period is 4), sample `i` at time `i` and radius
`keplerRadial (i % 4)` along the x axis from the reference. -/
def keplerTrajectory (n : ℕ) : List (ℚ × V3) :=
  (List.range (4 * n + 1)).map fun (i : ℕ) => ((i : ℚ), ⟨keplerRadial (i % 4), 0, 0⟩)

/-- The analytically computed orbital period of the modelled orbit: four
samples of spacing 1. -/
def keplerPeriod : ℚ := 4

/-- The consecutive differences of a list of times. -/
def pairwiseDiffs : List ℚ → List ℚ
  | a :: b :: rest => (b - a) :: pairwiseDiffs (b :: rest)
  | _ => []

/-- Exact flow of a constant-acceleration motion over a step `dt`: the
closed-form solution both of the test's fixed-step integration in the
zero-gravity ephemeris (where the lone body, placed at 2^100 m, contributes
negligible gravity, modelled as zero) and of its adaptive prolongations. -/
def flowDof (acceleration : V3) (dt : ℚ) (d : DegreesOfFreedom) :
    DegreesOfFreedom :=
  ⟨d.position + dt • d.velocity + ((dt * dt) / 2) • acceleration,
   d.velocity + dt • acceleration⟩

/-- An adaptive-step integrator instance, tied to the intrinsic-acceleration
function (a constant vector in the mid-step scenario) it was created
with. -/
structure AdaptiveInstance where
  intrinsicAcceleration : V3
deriving DecidableEq, Repr

/-- Modelled from the spec: `Ephemeris::FlowWithAdaptiveStep` for the
mid-step intrinsic-force scenario.  The ephemeris discards an instance whose
acceleration function differs from the caller's current one and creates a
fresh instance rooted at the current state, then integrates with the current
acceleration. -/
def FlowWithAdaptiveStep (inst : Option AdaptiveInstance)
    (intrinsicAcceleration : V3) (dt : ℚ) (d : DegreesOfFreedom) :
    DegreesOfFreedom × AdaptiveInstance :=
  let inst2 : AdaptiveInstance :=
    match inst with
    | some i =>
      if i.intrinsicAcceleration = intrinsicAcceleration then i
      else ⟨intrinsicAcceleration⟩
    | none => ⟨intrinsicAcceleration⟩
  (flowDof inst2.intrinsicAcceleration dt d, inst2)

/-- The faulty alternative the spec rules out: silently continuing to
integrate with the stale instance's outdated acceleration function. -/
def FlowWithAdaptiveStepStale (inst : Option AdaptiveInstance)
    (intrinsicAcceleration : V3) (dt : ℚ) (d : DegreesOfFreedom) :
    DegreesOfFreedom × AdaptiveInstance :=
  match inst with
  | some i => (flowDof i.intrinsicAcceleration dt d, i)
  | none => (flowDof intrinsicAcceleration dt d, ⟨intrinsicAcceleration⟩)

/-- The state of the single-part pile-up of the mid-step scenario: part
mass, current intrinsic force, the last psychohistory point, the part's
rigid offset (zero for a one-part pile-up), the cached integrator instance,
and the part's ambient degrees of freedom as written by `NudgeParts`. -/
structure KineticPileUp where
  partMass : ℚ
  intrinsicForce : V3
  psychohistoryLast : ℚ × DegreesOfFreedom
  partOffset : DegreesOfFreedom
  inst : Option AdaptiveInstance
  partDof : DegreesOfFreedom
deriving DecidableEq, Repr

/-- Modelled from the spec: `PileUp::AdvanceTime(t)` in the zero-gravity
mid-step scenario: flow the barycentre over `[last, t]` with the intrinsic
acceleration `intrinsic_force / mass` through the ephemeris (which restarts
the integrator when the acceleration changed). -/
def KineticPileUp.AdvanceTime (pu : KineticPileUp) (t : ℚ) : KineticPileUp :=
  let acc := (1 / pu.partMass) • pu.intrinsicForce
  let r := FlowWithAdaptiveStep pu.inst acc (t - pu.psychohistoryLast.1)
    pu.psychohistoryLast.2
  { pu with psychohistoryLast := (t, r.1), inst := some r.2 }

/-- The same advance if the ephemeris silently kept the stale integrator
instance (the behaviour the spec rules out). -/
def KineticPileUp.AdvanceTimeStale (pu : KineticPileUp) (t : ℚ) :
    KineticPileUp :=
  let acc := (1 / pu.partMass) • pu.intrinsicForce
  let r := FlowWithAdaptiveStepStale pu.inst acc (t - pu.psychohistoryLast.1)
    pu.psychohistoryLast.2
  { pu with psychohistoryLast := (t, r.1), inst := some r.2 }

/-- `PileUp::set_intrinsic_force`. -/
def KineticPileUp.set_intrinsic_force (pu : KineticPileUp) (f : V3) :
    KineticPileUp :=
  { pu with intrinsicForce := f }

/-- `PileUp::NudgeParts`, modelled from the spec: write the barycentre state
transformed by the part's rigid offset back onto the part. -/
def KineticPileUp.NudgeParts (pu : KineticPileUp) : KineticPileUp :=
  { pu with partDof :=
      ⟨pu.psychohistoryLast.2.position + pu.partOffset.position,
       pu.psychohistoryLast.2.velocity + pu.partOffset.velocity⟩ }

/-- The initial single-part pile-up of the mid-step scenario: no intrinsic
force, psychohistory rooted at time 0 at the part's state, no cached
integrator instance. -/
def midStepInitial (m : ℚ) (d0 : DegreesOfFreedom) : KineticPileUp :=
  ⟨m, 0, (0, d0), ⟨0, 0⟩, none, d0⟩

/-- The scenario after coasting (no intrinsic force) to one and a half fixed
steps, followed by `NudgeParts`. -/
def midStepAfterCoast (m : ℚ) (d0 : DegreesOfFreedom) (Δt : ℚ) :
    KineticPileUp :=
  ((midStepInitial m d0).AdvanceTime (3/2 * Δt)).NudgeParts

/-- The scenario after then setting the constant intrinsic force `m • a` at
the step's midpoint and advancing to the end of the step. -/
def midStepAfterBurn (m : ℚ) (d0 : DegreesOfFreedom) (Δt : ℚ) (a : V3) :
    KineticPileUp :=
  (((midStepAfterCoast m d0 Δt).set_intrinsic_force (m • a)).AdvanceTime
    (2 * Δt)).NudgeParts

/-- The same burn if the stale integrator instance had been kept. -/
def midStepAfterBurnStale (m : ℚ) (d0 : DegreesOfFreedom) (Δt : ℚ)
    (a : V3) : KineticPileUp :=
  (((midStepAfterCoast m d0 Δt).set_intrinsic_force (m • a)).AdvanceTimeStale
    (2 * Δt)).NudgeParts

/-- The wire shape of `serialization::PileUp` exercised by the test: part
ids, the psychohistory timeline, and the two offset maps keyed by part id.
Protocol-buffer serialization of these fields is deterministic, so
structural equality of this message models byte equality of
`SerializeAsString`. -/
structure PileUpMessage where
  part_id : List ℕ
  psychohistory : List (ℚ × DegreesOfFreedom)
  actual_part_degrees_of_freedom : List (ℕ × DegreesOfFreedom)
  apparent_part_degrees_of_freedom : List (ℕ × DegreesOfFreedom)
deriving DecidableEq, Repr

/-- Modelled from the spec: `PileUp::WriteToMessage` serializes the members
by stable identity, the psychohistory, the rigid offsets and the pending
apparent offsets. -/
def WriteToMessage (pu : PileUp) : PileUpMessage :=
  ⟨pu.members.map Part.id, pu.psychohistory, pu.actualPartDof,
   pu.apparentPartDof⟩

/-- Modelled from the spec: `PileUp::ReadFromMessage` re-resolves part
identities through the externally supplied lookup and reconstructs the
pile-up; mass and intrinsic force are not serialized but recomputed from
the resolved parts. -/
def ReadFromMessage (m : PileUpMessage) (part_id_to_part : ℕ → Part) :
    PileUp :=
  let parts := m.part_id.map part_id_to_part
  { members := parts
    mass := (parts.map Part.mass).foldl (· + ·) 0
    intrinsicForce := (parts.map Part.intrinsicForce).foldl (· + ·) 0
    psychohistory := m.psychohistory
    actualPartDof := m.actual_part_degrees_of_freedom
    apparentPartDof := m.apparent_part_degrees_of_freedom }

/-- The part resolver of the serialization test: id 111 resolves to part 1,
id 222 to part 2. -/
def partIdToPartTest : ℕ → Part :=
  fun id => if id = 111 then p1TestF else p2TestF

end Principia

namespace Principia

theorem V3.zero_def : (0 : V3) = ⟨0, 0, 0⟩ := rfl

theorem V3.zero_x : (0 : V3).x = 0 := rfl

theorem V3.zero_y : (0 : V3).y = 0 := rfl

theorem V3.zero_z : (0 : V3).z = 0 := rfl

theorem V3.add_def (a b : V3) :
    a + b = ⟨a.x + b.x, a.y + b.y, a.z + b.z⟩ := rfl

theorem V3.sub_def (a b : V3) :
    a - b = ⟨a.x - b.x, a.y - b.y, a.z - b.z⟩ := rfl

theorem V3.smul_def (q : ℚ) (a : V3) :
    q • a = ⟨q * a.x, q * a.y, q * a.z⟩ := rfl

theorem foldl_add_eq_sum {M : Type} [AddMonoid M] (l : List M) (a : M) :
    l.foldl (· + ·) a = a + l.sum := by
  induction l generalizing a with
  | nil => simp
  | cons h tl ih => simp [ih, add_assoc]

/-- C1: for a two-part pile-up with positive total mass, the stored
rigid-frame offsets satisfy `m1 • offset1 + m2 • offset2 = 0` (positions and
velocities alike), the psychohistory starts at the mass-weighted barycenter,
and at the test fixture (masses 1 kg and 2 kg at (1,2,3) m and (6,5,4) m,
velocities ten times those values) the barycenter is (13/3, 4, 11/3) m with
first offset (−10/3, −2, −2/3) m. -/
theorem pileUp_barycentre_offsets
    (p₁ p₂ : Part) (t : ℚ) (h : 0 < p₁.mass + p₂.mass) :
    (p₁.mass • (constructionOffset [p₁, p₂] p₁).position +
        p₂.mass • (constructionOffset [p₁, p₂] p₂).position = 0 ∧
      p₁.mass • (constructionOffset [p₁, p₂] p₁).velocity +
        p₂.mass • (constructionOffset [p₁, p₂] p₂).velocity = 0 ∧
      (mkPileUp [p₁, p₂] t).psychohistory = [(t, Barycentre [p₁, p₂])] ∧
      (mkPileUp [p₁, p₂] t).actualPartDof =
        [(p₁.id, constructionOffset [p₁, p₂] p₁),
         (p₂.id, constructionOffset [p₁, p₂] p₂)]) ∧
    (Barycentre [p1Test, p2Test]).position = ⟨13/3, 4, 11/3⟩ ∧
    constructionOffset [p1Test, p2Test] p1Test =
      ⟨⟨-10/3, -2, -2/3⟩, ⟨-100/3, -20, -20/3⟩⟩ := by
  have hm : p₁.mass + p₂.mass ≠ 0 := ne_of_gt h
  refine ⟨⟨?_, ?_, rfl, rfl⟩, ?_, ?_⟩
  case refine_3 =>
    norm_num [Barycentre, p1Test, p2Test, DegreesOfFreedom.smul,
      DegreesOfFreedom.add, V3.smul_def, V3.add_def, V3.zero_def,
      V3.zero_x, V3.zero_y, V3.zero_z, V3.mk.injEq]
  case refine_4 =>
    norm_num [constructionOffset, Barycentre, p1Test, p2Test,
      DegreesOfFreedom.sub, DegreesOfFreedom.smul, DegreesOfFreedom.add,
      V3.smul_def, V3.add_def, V3.sub_def, V3.zero_def,
      V3.zero_x, V3.zero_y, V3.zero_z, DegreesOfFreedom.mk.injEq, V3.mk.injEq]
  all_goals
    simp only [constructionOffset, Barycentre, DegreesOfFreedom.sub,
      DegreesOfFreedom.smul, DegreesOfFreedom.add, List.map_cons,
      List.map_nil, List.sum_cons, List.sum_nil, List.foldl_cons,
      List.foldl_nil, V3.smul_def, V3.sub_def, V3.add_def, V3.zero_def,
      V3.mk.injEq]
    refine ⟨?_, ?_, ?_⟩ <;> field_simp <;> ring

/-- Witness for C1 at the test fixture. -/
theorem pileUp_barycentre_offsets_witness :
    p1Test.mass • (constructionOffset [p1Test, p2Test] p1Test).position +
        p2Test.mass • (constructionOffset [p1Test, p2Test] p2Test).position
      = 0 :=
  (pileUp_barycentre_offsets p1Test p2Test 0 (by norm_num [p1Test, p2Test])).1.1

/-- C6: at construction the pile-up's intrinsic force is the vector sum of
the members' accumulated intrinsic forces (zero when no member carries a
force) and its mass is the sum of the member masses; at the test fixture the
forces (1,2,3) N and (11,21,31) N sum to (12,23,34) N and the masses 1 kg
and 2 kg sum to 3 kg. -/
theorem pileUp_mass_and_intrinsic_force (parts : List Part) (t : ℚ) :
    ((mkPileUp parts t).intrinsicForce =
        (parts.map Part.intrinsicForce).sum ∧
      (mkPileUp parts t).mass = (parts.map Part.mass).sum ∧
      ((∀ p ∈ parts, p.intrinsicForce = 0) →
        (mkPileUp parts t).intrinsicForce = 0)) ∧
    (mkPileUp [p1TestF, p2TestF] 0).intrinsicForce = ⟨12, 23, 34⟩ ∧
    (mkPileUp [p1TestF, p2TestF] 0).mass = 3 := by
  refine ⟨⟨?_, ?_, ?_⟩, ?_, ?_⟩
  · simp [mkPileUp, foldl_add_eq_sum]
  · simp [mkPileUp, foldl_add_eq_sum]
  · intro hz
    have hz2 : ∀ v ∈ parts.map Part.intrinsicForce, v = (0 : V3) := by
      intro v hv
      rcases List.mem_map.mp hv with ⟨p, hp, rfl⟩
      exact hz p hp
    simp [mkPileUp, foldl_add_eq_sum, List.sum_eq_zero hz2]
  · norm_num [mkPileUp, p1TestF, p2TestF, V3.add_def, V3.zero_def,
      V3.zero_x, V3.zero_y, V3.zero_z, V3.mk.injEq]
  · norm_num [mkPileUp, p1TestF, p2TestF]

/-- Witness for C6: a pile-up of force-free parts carries a zero intrinsic
force. -/
theorem pileUp_mass_and_intrinsic_force_witness :
    (mkPileUp [p1Test, p2Test] 0).intrinsicForce = 0 :=
  (pileUp_mass_and_intrinsic_force [p1Test, p2Test] 0).1.2.2 (by
    intro p hp
    simp only [List.mem_cons, List.not_mem_nil, or_false] at hp
    rcases hp with rfl | rfl <;> rfl)

/-- C5: if apparent degrees of freedom have been recorded for every member,
`DeformPileUpIfNeeded` rebases each member's rigid-frame offset to its
offset from the apparent mass-weighted barycenter and clears the apparent
map; if some member lacks apparent data, the rigid offsets are unchanged.
At the test fixture the rebased offsets are (−34/9, −2/3, 8/9) m and
(17/9, 1/3, −4/9) m. -/
theorem deformPileUp_rebases_offsets :
    (∀ pu : PileUp, apparentComplete pu = true →
      (DeformPileUpIfNeeded pu).apparentPartDof = [] ∧
      (DeformPileUpIfNeeded pu).actualPartDof =
        pu.members.map fun p =>
          (p.id, DegreesOfFreedom.sub (apparentOf pu p)
            (ApparentBarycentre pu))) ∧
    (∀ pu : PileUp, apparentComplete pu = false →
      (DeformPileUpIfNeeded pu).actualPartDof = pu.actualPartDof) ∧
    (DeformPileUpIfNeeded
        (SetPartApparentDegreesOfFreedom
          (SetPartApparentDegreesOfFreedom (mkPileUp [p1Test, p2Test] 0)
            111 a1Test)
          222 a2Test)).actualPartDof =
      [(111, ⟨⟨-34/9, -2/3, 8/9⟩, ⟨-340/9, -20/3, 80/9⟩⟩),
       (222, ⟨⟨17/9, 1/3, -4/9⟩, ⟨170/9, 10/3, -40/9⟩⟩)] ∧
    (DeformPileUpIfNeeded
        (SetPartApparentDegreesOfFreedom
          (SetPartApparentDegreesOfFreedom (mkPileUp [p1Test, p2Test] 0)
            111 a1Test)
          222 a2Test)).apparentPartDof = [] ∧
    (DeformPileUpIfNeeded
        (SetPartApparentDegreesOfFreedom (mkPileUp [p1Test, p2Test] 0)
          111 a1Test)).actualPartDof =
      (mkPileUp [p1Test, p2Test] 0).actualPartDof := by
  refine ⟨?_, ?_, ?_, ?_, ?_⟩
  · intro pu hc
    simp [DeformPileUpIfNeeded, hc]
  · intro pu hc
    simp [DeformPileUpIfNeeded, hc]
  · simp [DeformPileUpIfNeeded, SetPartApparentDegreesOfFreedom,
      mkPileUp, apparentComplete, apparentOf, ApparentBarycentre,
      p1Test, p2Test, a1Test, a2Test, List.lookup,
      DegreesOfFreedom.sub, DegreesOfFreedom.smul, DegreesOfFreedom.add,
      V3.smul_def, V3.add_def, V3.sub_def, V3.zero_def,
      V3.zero_x, V3.zero_y, V3.zero_z,
      DegreesOfFreedom.mk.injEq, V3.mk.injEq]
    norm_num
  · simp [DeformPileUpIfNeeded, SetPartApparentDegreesOfFreedom,
      mkPileUp, apparentComplete, p1Test, p2Test, List.lookup]
  · simp [DeformPileUpIfNeeded, SetPartApparentDegreesOfFreedom,
      mkPileUp, apparentComplete, p1Test, p2Test, List.lookup]

/-- Witness for C5: the complete-apparent-data branch at the test
fixture clears the apparent map. -/
theorem deformPileUp_rebases_offsets_witness :
    (DeformPileUpIfNeeded
        (SetPartApparentDegreesOfFreedom
          (SetPartApparentDegreesOfFreedom (mkPileUp [p1Test, p2Test] 0)
            111 a1Test)
          222 a2Test)).apparentPartDof = [] :=
  (deformPileUp_rebases_offsets.1 _ (by
    simp [SetPartApparentDegreesOfFreedom, mkPileUp, apparentComplete,
      p1Test, p2Test, List.lookup])).1

/-- Counterexample to C2 as stated: in the intrinsic-force lifecycle of the
test, the whole interval is covered by an adaptive-step (intrinsic-force)
flow, yet `AdvanceTime` marks the tail authoritative. -/
theorem advanceTime_adaptive_authoritative_cex :
    (mkPileUp [p1TestF, p2TestF] 0).intrinsicForce ≠ (0 : V3) ∧
    (AdvanceTime (mkPileUp [p1TestF, p2TestF] 0) 1 [] adaptiveTest
      ).authoritative = true := by
  have hf : (mkPileUp [p1TestF, p2TestF] 0).intrinsicForce ≠ (0 : V3) := by
    have h12 : (mkPileUp [p1TestF, p2TestF] 0).intrinsicForce = ⟨12, 23, 34⟩ := by
      norm_num [mkPileUp, p1TestF, p2TestF, V3.add_def, V3.zero_def,
        V3.zero_x, V3.zero_y, V3.zero_z, V3.mk.injEq]
    rw [h12]
    intro hEq
    have hx := congrArg V3.x hEq
    rw [V3.zero_x] at hx
    norm_num at hx
  exact ⟨hf, by simp [AdvanceTime, hf]⟩

/-- C2 (amended): `AdvanceTime(t)` marks the psychohistory/part tails
authoritative exactly when the flow covering the interval was complete on
its own terms: a nonzero intrinsic force makes the full adaptive result
authoritative, and with no intrinsic force the tail is authoritative iff
the fixed-step grid reached `t` exactly; a fixed-step result falling short
of `t`, topped up by an adaptive prolongation, leaves the tail
non-authoritative. -/
theorem advanceTime_authoritative_iff (pu : PileUp) (t : ℚ)
    (fixedPoints : List (ℚ × DegreesOfFreedom))
    (adaptivePoint : DegreesOfFreedom) :
    (AdvanceTime pu t fixedPoints adaptivePoint).authoritative = true ↔
      (pu.intrinsicForce ≠ (0 : V3) ∨
        lastTimeOf (pu.psychohistory ++ fixedPoints) = some t) := by
  by_cases hf : pu.intrinsicForce = (0 : V3)
  · by_cases ht : lastTimeOf (pu.psychohistory ++ fixedPoints) = some t
    · simp [AdvanceTime, hf, ht]
    · simp [AdvanceTime, hf, ht]
  · simp [AdvanceTime, hf]

/-- C9: `Evaluate(t)` and `EvaluateDerivative(t)` are defined for every `t`
in the validity interval `[t_min, t_max]` and fail for every `t` outside it;
in particular, under the precondition `t ∈ [t_min, t_max]` the failure
branch is unreachable. -/
theorem chebyshevSeries_evaluate_defined_iff (s : ChebyshevSeries) (t : ℚ) :
    ((s.Evaluate t).isSome ↔ (s.t_min ≤ t ∧ t ≤ s.t_max)) ∧
    ((s.EvaluateDerivative t).isSome ↔ (s.t_min ≤ t ∧ t ≤ s.t_max)) := by
  by_cases h : s.t_min ≤ t ∧ t ≤ s.t_max <;>
    simp [ChebyshevSeries.Evaluate, ChebyshevSeries.EvaluateDerivative, h]

/-- C8: `Append(t, dof)` succeeds exactly when `t` is strictly greater than
the last time on the target path (a fatal failure, `none`, otherwise), so a
path whose times strictly increase still strictly increases after any
successful append. -/
theorem discreteTrajectory_append_monotone :
    (∀ (tr : DiscreteTrajectory) (t : ℚ) (d : DegreesOfFreedom),
      (tr.Append t d).isSome = true ↔
        ∀ u, tr.lastTime = some u → u < t) ∧
    (∀ (tr tr2 : DiscreteTrajectory) (t : ℚ) (d : DegreesOfFreedom),
      (tr.timeline.map Prod.fst).Chain' (· < ·) →
      tr.Append t d = some tr2 →
      (tr2.timeline.map Prod.fst).Chain' (· < ·)) ∧
    (∀ (tr : DiscreteTrajectory) (t : ℚ) (d : DegreesOfFreedom) (u : ℚ),
      tr.lastTime = some u → t ≤ u → tr.Append t d = none) := by
  refine ⟨?_, ?_, ?_⟩
  · intro tr t d
    cases h : (tr.timeline.map Prod.fst).getLast? with
    | none => simp [DiscreteTrajectory.Append, DiscreteTrajectory.lastTime, h]
    | some u =>
      by_cases hu : u < t <;>
        simp [DiscreteTrajectory.Append, DiscreteTrajectory.lastTime, h, hu]
  · intro tr tr2 t d hsort happ
    rw [DiscreteTrajectory.Append] at happ
    have h2 : tr2.timeline = tr.timeline ++ [(t, d)] ∧
        ∀ x ∈ (tr.timeline.map Prod.fst).getLast?, x < t := by
      cases h : (tr.timeline.map Prod.fst).getLast? with
      | none =>
        rw [h] at happ
        exact ⟨congrArg DiscreteTrajectory.timeline
          (Option.some.inj happ).symm, by simp⟩
      | some u =>
        rw [h] at happ
        have happ2 : (if u < t then
            some (DiscreteTrajectory.mk (tr.timeline ++ [(t, d)]))
          else none) = some tr2 := happ
        by_cases hu : u < t
        · rw [if_pos hu] at happ2
          refine ⟨congrArg DiscreteTrajectory.timeline
            (Option.some.inj happ2).symm, ?_⟩
          intro x hx
          rw [Option.mem_def, Option.some.injEq] at hx
          rw [← hx]
          exact hu
        · rw [if_neg hu] at happ2
          cases happ2
    rw [h2.1, List.map_append]
    rw [List.chain'_append]
    refine ⟨hsort, by simp, ?_⟩
    intro x hx y hy
    simp only [List.map_cons, List.map_nil, List.head?_cons,
      Option.mem_def, Option.some.injEq] at hy
    rw [← hy]
    exact h2.2 x hx
  · intro tr t d u hu hle
    rw [DiscreteTrajectory.Append]
    rw [DiscreteTrajectory.lastTime] at hu
    rw [hu]
    show (if u < t then
        some (DiscreteTrajectory.mk (tr.timeline ++ [(t, d)]))
      else none) = none
    rw [if_neg (not_lt.mpr hle)]

/-- Witness for C8 at a concrete path. -/
theorem discreteTrajectory_append_monotone_witness :
    ((DiscreteTrajectory.mk [((0 : ℚ), adaptiveTest)]).Append 1
      adaptiveTest).isSome = true :=
  (discreteTrajectory_append_monotone.1 ⟨[(0, adaptiveTest)]⟩ 1
    adaptiveTest).mpr (by
      intro u hu
      simp [DiscreteTrajectory.lastTime] at hu
      rw [← hu]
      norm_num)

/-- `on_or_after` at a time present in a strictly increasing trajectory
finds exactly the sample at that time. -/
theorem onOrAfter_eq_of_mem (centre : List (ℚ × DegreesOfFreedom)) (t : ℚ)
    (dc : DegreesOfFreedom)
    (hsort : (centre.map Prod.fst).Chain' (· < ·))
    (hmem : (t, dc) ∈ centre) :
    onOrAfter centre t = some (t, dc) := by
  induction centre with
  | nil => cases hmem
  | cons hd tl ih =>
    have hsort2 : (tl.map Prod.fst).Chain' (· < ·) := by
      rw [List.map_cons] at hsort
      exact hsort.tail
    by_cases ht : t ≤ hd.1
    · rcases List.mem_cons.mp hmem with hEq | htl
      · rw [onOrAfter, ← hEq]
        exact List.find?_cons_of_pos tl (by simp)
      · exfalso
        have hpw : (hd.1 :: tl.map Prod.fst).Pairwise (· < ·) := by
          have := List.chain'_iff_pairwise.mp hsort
          rw [List.map_cons] at this
          exact this
        have htm : t ∈ tl.map Prod.fst :=
          List.mem_map.mpr ⟨(t, dc), htl, rfl⟩
        have : hd.1 < t := (List.pairwise_cons.mp hpw).1 t htm
        exact absurd ht (not_le.mpr this)
    · have hne : (t, dc) ≠ hd := by
        intro hEq
        exact ht (le_of_eq (congrArg Prod.fst hEq))
      have htl : (t, dc) ∈ tl := by
        rcases List.mem_cons.mp hmem with hEq | htl
        · exact absurd hEq hne
        · exact htl
      rw [onOrAfter, List.find?_cons_of_neg tl (by simp [ht])]
      exact ih hsort2 htl

/-- C10: the first transform of `Transforms::BodyCentredNonRotating`,
applied at an instant `t` over a strictly increasing centre trajectory,
aborts (is `none`) exactly when `t` is not a sample time of the centre
trajectory; at a sample time it subtracts the centre's position and
velocity at `t`, so the centre's own degrees of freedom map to zero
displacement and zero velocity. -/
theorem bodyCentredNonRotating_first_transform
    (centre : List (ℚ × DegreesOfFreedom)) (t : ℚ) (d : DegreesOfFreedom)
    (hsort : (centre.map Prod.fst).Chain' (· < ·)) :
    ((firstTransformBodyCentredNonRotating centre t d).isSome ↔
      t ∈ centre.map Prod.fst) ∧
    (∀ dc, (t, dc) ∈ centre →
      firstTransformBodyCentredNonRotating centre t d =
        some ⟨d.position - dc.position, d.velocity - dc.velocity⟩ ∧
      firstTransformBodyCentredNonRotating centre t dc =
        some ⟨0, 0⟩) := by
  constructor
  · constructor
    · intro hs
      cases hoa : onOrAfter centre t with
      | none =>
        rw [firstTransformBodyCentredNonRotating, hoa] at hs
        cases hs
      | some c =>
        by_cases hct : c.1 = t
        · have hfind : centre.find? (fun p => decide (t ≤ p.1)) = some c :=
            hoa
          have hc : c ∈ centre := List.mem_of_find?_eq_some hfind
          exact List.mem_map.mpr ⟨c, hc, hct⟩
        · rw [firstTransformBodyCentredNonRotating, hoa] at hs
          have hs2 : (if c.1 = t then
              some (DegreesOfFreedom.mk (d.position - c.2.position)
                (d.velocity - c.2.velocity))
            else none).isSome = true := hs
          rw [if_neg hct] at hs2
          cases hs2
    · intro hmem
      rcases List.mem_map.mp hmem with ⟨c, hc, hct⟩
      have hmem2 : (t, c.2) ∈ centre := by
        have : (c.1, c.2) = c := rfl
        rw [← hct]
        rw [this]
        exact hc
      rw [firstTransformBodyCentredNonRotating,
        onOrAfter_eq_of_mem centre t c.2 hsort hmem2]
      simp
  · intro dc hmem
    have hoa := onOrAfter_eq_of_mem centre t dc hsort hmem
    constructor
    · rw [firstTransformBodyCentredNonRotating, hoa]
      simp
    · rw [firstTransformBodyCentredNonRotating, hoa]
      simp [V3.sub_def, V3.zero_def]

/-- Witness for C10 on a two-sample centre trajectory. -/
theorem bodyCentredNonRotating_first_transform_witness :
    firstTransformBodyCentredNonRotating
        [((0 : ℚ), a1Test), (1, a2Test)] 1 a2Test = some ⟨0, 0⟩ :=
  ((bodyCentredNonRotating_first_transform [(0, a1Test), (1, a2Test)] 1
      a2Test (by norm_num [List.chain'_cons])).2 a2Test (by simp)).2

set_option maxRecDepth 4000 in
/-- C3: for the modelled two-body Keplerian orbit integrated over 10
periods (four samples per period, analytically known period
`keplerPeriod`), `ComputeApsides` appends exactly 2×10 apsis points — one
apoapsis and one periapsis per orbit — and successive apoapsis-to-apoapsis
and periapsis-to-periapsis time differences all equal the orbital
period. -/
theorem computeApsides_kepler_ten_orbits :
    (ComputeApsides 0 (keplerTrajectory 10)).1.length +
      (ComputeApsides 0 (keplerTrajectory 10)).2.length = 2 * 10 ∧
    (ComputeApsides 0 (keplerTrajectory 10)).1.length = 10 ∧
    (ComputeApsides 0 (keplerTrajectory 10)).2.length = 10 ∧
    pairwiseDiffs ((ComputeApsides 0 (keplerTrajectory 10)).1.map
      Prod.fst) = List.replicate 9 keplerPeriod ∧
    pairwiseDiffs ((ComputeApsides 0 (keplerTrajectory 10)).2.map
      Prod.fst) = List.replicate 9 keplerPeriod := by
  norm_num [keplerTrajectory, List.range_succ, ComputeApsides, keplerRadial,
    squaredNorm, V3.sub_def, V3.zero_def, V3.zero_x, V3.zero_y, V3.zero_z,
    pairwiseDiffs, List.replicate, keplerPeriod]

/-- The degrees of freedom an adaptive flow produces do not depend on the
cached instance: a stale instance is discarded and recreated with the
current acceleration. -/
theorem flowWithAdaptiveStep_fst (inst : Option AdaptiveInstance) (acc : V3)
    (dt : ℚ) (d : DegreesOfFreedom) :
    (FlowWithAdaptiveStep inst acc dt d).1 = flowDof acc dt d := by
  cases inst with
  | none => rfl
  | some i =>
    by_cases h : i.intrinsicAcceleration = acc <;>
      simp [FlowWithAdaptiveStep, h]

/-- C4: under zero intrinsic force a part's ambient-frame velocity is
unchanged by the pile-up round trip (`AdvanceTime` then `NudgeParts`); when
the constant intrinsic acceleration `a` is set at the midpoint of a fixed
step of duration `Δt` and the pile-up is advanced to the end of that step,
the recovered velocity change is `0.5·Δt·a`; and this requires the
ephemeris to restart the adaptive integrator: continuing with the stale
zero acceleration would leave the velocity unchanged, which differs from
the correct result whenever `a ≠ 0` and `Δt ≠ 0`. -/
theorem midStepIntrinsicForce_velocity (m : ℚ) (d0 : DegreesOfFreedom)
    (Δt : ℚ) (a : V3) (hm : m ≠ 0) :
    (midStepAfterCoast m d0 Δt).partDof.velocity = d0.velocity ∧
    (midStepAfterBurn m d0 Δt a).partDof.velocity =
      d0.velocity + ((1/2) * Δt) • a ∧
    (midStepAfterBurnStale m d0 Δt a).partDof.velocity = d0.velocity ∧
    (a ≠ 0 → Δt ≠ 0 →
      (midStepAfterBurnStale m d0 Δt a).partDof.velocity ≠
        (midStepAfterBurn m d0 Δt a).partDof.velocity) := by
  have hcoast : (midStepAfterCoast m d0 Δt).partDof.velocity =
      d0.velocity := by
    simp only [midStepAfterCoast, midStepInitial, KineticPileUp.AdvanceTime,
      KineticPileUp.NudgeParts, flowWithAdaptiveStep_fst, flowDof,
      V3.smul_def, V3.add_def, V3.zero_x, V3.zero_y, V3.zero_z,
      V3.mk.injEq]
    ring_nf
  have hburn : (midStepAfterBurn m d0 Δt a).partDof.velocity =
      d0.velocity + ((1/2) * Δt) • a := by
    simp only [midStepAfterBurn, midStepAfterCoast, midStepInitial,
      KineticPileUp.set_intrinsic_force, KineticPileUp.AdvanceTime,
      KineticPileUp.NudgeParts, flowWithAdaptiveStep_fst, flowDof,
      V3.smul_def, V3.add_def, V3.zero_x, V3.zero_y, V3.zero_z,
      V3.mk.injEq]
    refine ⟨?_, ?_, ?_⟩ <;> rw [one_div, inv_mul_cancel_left₀ hm] <;> ring
  have hstale : (midStepAfterBurnStale m d0 Δt a).partDof.velocity =
      d0.velocity := by
    simp only [midStepAfterBurnStale, midStepAfterCoast, midStepInitial,
      KineticPileUp.set_intrinsic_force, KineticPileUp.AdvanceTime,
      KineticPileUp.AdvanceTimeStale, KineticPileUp.NudgeParts,
      FlowWithAdaptiveStep, FlowWithAdaptiveStepStale, flowDof,
      V3.smul_def, V3.add_def, V3.zero_x, V3.zero_y, V3.zero_z,
      V3.mk.injEq]
    ring_nf
  refine ⟨hcoast, hburn, hstale, ?_⟩
  intro ha hdt hEq
  rw [hstale, hburn] at hEq
  apply ha
  have hx := congrArg V3.x hEq
  have hy := congrArg V3.y hEq
  have hz := congrArg V3.z hEq
  simp only [V3.add_def, V3.smul_def] at hx hy hz
  have hax : a.x = 0 := by
    have : (1/2 : ℚ) * Δt * a.x = 0 := by linarith
    rcases mul_eq_zero.mp this with h | h
    · rcases mul_eq_zero.mp h with h2 | h2
      · norm_num at h2
      · exact absurd h2 hdt
    · exact h
  have hay : a.y = 0 := by
    have : (1/2 : ℚ) * Δt * a.y = 0 := by linarith
    rcases mul_eq_zero.mp this with h | h
    · rcases mul_eq_zero.mp h with h2 | h2
      · norm_num at h2
      · exact absurd h2 hdt
    · exact h
  have haz : a.z = 0 := by
    have : (1/2 : ℚ) * Δt * a.z = 0 := by linarith
    rcases mul_eq_zero.mp this with h | h
    · rcases mul_eq_zero.mp h with h2 | h2
      · norm_num at h2
      · exact absurd h2 hdt
    · exact h
  cases a with
  | mk ax ay az =>
    rw [V3.zero_def]
    simp only [V3.mk.injEq]
    exact ⟨hax, hay, haz⟩

/-- Witness for C4 at the test's numbers: mass 1 kg, step 10 s,
acceleration (1729, −168, 504) m/s². -/
theorem midStepIntrinsicForce_velocity_witness :
    (midStepAfterBurn 1 ⟨⟨1, 2, 3⟩, ⟨10, 20, 30⟩⟩ 10
      ⟨1729, -168, 504⟩).partDof.velocity =
      (⟨⟨1, 2, 3⟩, ⟨10, 20, 30⟩⟩ : DegreesOfFreedom).velocity +
        ((1/2 : ℚ) * 10) • (⟨1729, -168, 504⟩ : V3) :=
  (midStepIntrinsicForce_velocity 1 ⟨⟨1, 2, 3⟩, ⟨10, 20, 30⟩⟩ 10
    ⟨1729, -168, 504⟩ (by norm_num)).2.1

/-- C7: serializing a pile-up, deserializing through a part-identity
resolver faithful on the member ids, and serializing again yields a message
equal (hence byte-identical on the wire) to the first serialization. -/
theorem pileUp_serialization_round_trip (pu : PileUp)
    (resolver : ℕ → Part)
    (hres : ∀ p ∈ pu.members, (resolver p.id).id = p.id) :
    WriteToMessage (ReadFromMessage (WriteToMessage pu) resolver) =
      WriteToMessage pu := by
  simp only [WriteToMessage, ReadFromMessage, List.map_map,
    PileUpMessage.mk.injEq, and_true]
  refine List.map_congr_left ?_
  intro p hp
  simp only [Function.comp_apply]
  exact hres p hp

/-- Witness for C7: the round trip at the serialization test's two
force-bearing parts and resolver. -/
theorem pileUp_serialization_round_trip_witness :
    WriteToMessage (ReadFromMessage
        (WriteToMessage (mkPileUp [p1TestF, p2TestF] 0)) partIdToPartTest) =
      WriteToMessage (mkPileUp [p1TestF, p2TestF] 0) :=
  pileUp_serialization_round_trip (mkPileUp [p1TestF, p2TestF] 0)
    partIdToPartTest (by
      intro p hp
      simp only [mkPileUp] at hp
      rcases List.mem_cons.mp hp with rfl | hp2
      · simp [partIdToPartTest, p1TestF]
      · rcases List.mem_cons.mp hp2 with rfl | hp3
        · simp [partIdToPartTest, p2TestF]
        · cases hp3)

end Principia
